import Mathlib

/-!
Verification development for the handwritten-grading-ocr repository.

The Lean definitions below are a shallow embedding of the Python sources:
numbers that Python holds as floats are modelled as rationals, Python
dictionaries (which preserve insertion order) are modelled as insertion
ordered association lists, and fallible operations return Option.

Embedded source functions:
  calculate_final_scores.py : calculate_trimmed_mean, the final-score step
    of process_csv (round(trimmed_mean * 10))
  src/data_aggregator.py    : DataAggregator (_load_master_list,
    add_ocr_result, batch_add_results, get_statistics, clear)
  src/csv_writer.py         : CSVWriter.write
-/

namespace GradingOCR

/-! ## Robust scorer (calculate_final_scores.py) -/

/-- Ascending sort, `sorted(scores)` in the source. -/
def sortedAsc (S : List ℚ) : List ℚ := S.mergeSort

/-- The trim count of the source, `int(n * trim_percent)` with the default
`trim_percent = 0.10`.  `int(...)` truncates toward zero; on the exact
rational `n * (1/10)` with `n : ℕ` this is the floor.  (For every list
length that fits in an IEEE double, `int(n * 0.10)` in Python agrees with
this exact value.) -/
def trimCount10 (n : ℕ) : ℕ := (⌊(n : ℚ) * (1 / 10)⌋).toNat

/-- The Python slice `l[tc:-tc]` for `tc > 0`: the elements with indices
`tc ≤ i < l.length - tc`. -/
def pySliceTrim (l : List ℚ) (tc : ℕ) : List ℚ :=
  (l.drop tc).take (l.length - 2 * tc)

/-- Lines 30-36 of calculate_final_scores.py: compute the trim count and,
when it is positive, slice off that many elements from each end. -/
def trimmedSlice (ss : List ℚ) : List ℚ :=
  if 0 < trimCount10 ss.length then pySliceTrim ss (trimCount10 ss.length) else ss

/-- `calculate_trimmed_mean(scores)` of calculate_final_scores.py with the
default `trim_percent = 0.10`: empty input gives `0.0`; otherwise sort,
trim, fall back to the full sorted list when the trimmed slice is empty,
and return the arithmetic mean. -/
def calculate_trimmed_mean (scores : List ℚ) : ℚ :=
  if scores.isEmpty then 0
  else
    let ss := sortedAsc scores
    let trimmed := trimmedSlice ss
    let trimmed2 := if trimmed.isEmpty then ss else trimmed
    trimmed2.sum / trimmed2.length

/-- Round-half-to-even, the rounding rule of the Python builtin `round`
restricted to exact rational inputs. -/
def roundHalfEven (q : ℚ) : ℤ :=
  if q - ⌊q⌋ < 1 / 2 then ⌊q⌋
  else if 1 / 2 < q - ⌊q⌋ then ⌊q⌋ + 1
  else if ⌊q⌋ % 2 = 0 then ⌊q⌋ else ⌊q⌋ + 1

/-- Lines 77-81 of process_csv in calculate_final_scores.py:
`final_score = round(trimmed_mean * 10)`. -/
def final_score (scores : List ℚ) : ℤ :=
  roundHalfEven (calculate_trimmed_mean scores * 10)

/-- `round(x, 2)` of Python on exact rational inputs: round half to even at
the second decimal place. -/
def round2 (q : ℚ) : ℚ := (roundHalfEven (q * 100) : ℚ) / 100

/-! ## Data aggregator (src/data_aggregator.py)

A Python dict key in `DataAggregator.student_scores` is either a string or
`None` (the open-mode branch indexes the defaultdict with a possibly
missing `student_id`).  We model the key type as `Option String`, with
`none` standing for the Python value `None`. -/

/-- A dictionary key of `student_scores`. -/
abbrev Key := Option String

/-- One element of `data["scores"]` handed to `add_ocr_result`: the fields
the aggregator reads from a per-student OCR record. -/
structure ScoreData where
  student_id : Option String
  order : Option ℤ
  name : Option String
  score : Option ℤ
deriving DecidableEq

/-- One value of the `student_scores` defaultdict. -/
structure StudentInfo where
  order : Option ℤ
  name : Option String
  scores : List (Option ℤ)
deriving DecidableEq

/-- The defaultdict default: `{'order': None, 'name': None, 'scores': []}`. -/
def defaultInfo : StudentInfo := ⟨none, none, []⟩

/-- One OCR result dict as read by `add_ocr_result`: the `success` flag,
`file_name`, and `data["scores"]`. -/
structure OCRResult where
  success : Bool
  file_name : String
  scores : List ScoreData
deriving DecidableEq

/-- The mutable state of a `DataAggregator`. -/
structure AggState where
  student_scores : List (Key × StudentInfo)
  processed_files : List String
  has_master_list : Bool
deriving DecidableEq

/-- One entry of `master_list["students"]`. -/
structure RosterStudent where
  order : ℤ
  student_id : String
  name : String
deriving DecidableEq

/-- Lookup in the insertion-ordered association list. -/
def dictFind (m : List (Key × StudentInfo)) (k : Key) : Option StudentInfo :=
  match m with
  | [] => none
  | (k2, v) :: rest => if k2 = k then some v else dictFind rest k

/-- `k in d` for the dict. -/
def dictMem (m : List (Key × StudentInfo)) (k : Key) : Bool :=
  (dictFind m k).isSome

/-- A defaultdict access `d[k]` followed by a mutation `f` of the entry:
creates the entry (at the end, as Python dict insertion does) from the
default when absent, then applies `f` in place. -/
def dictTouch (m : List (Key × StudentInfo)) (k : Key) (f : StudentInfo → StudentInfo) :
    List (Key × StudentInfo) :=
  match m with
  | [] => [(k, f defaultInfo)]
  | (k2, v) :: rest =>
      if k2 = k then (k2, f v) :: rest else (k2, v) :: dictTouch rest k f

/-- The key list of the dict, in insertion order. -/
def dictKeys (m : List (Key × StudentInfo)) : List Key := m.map Prod.fst

/-- `_load_master_list`: seed an entry per roster student, setting `order`
and `name` and leaving `scores` empty; then set `has_master_list`. -/
def load_master_list (st : AggState) (students : List RosterStudent) : AggState :=
  { st with
    student_scores := students.foldl (fun m s =>
      dictTouch m (some s.student_id)
        (fun info => { info with order := some s.order, name := some s.name }))
      st.student_scores,
    has_master_list := true }

/-- `DataAggregator.__init__`: fresh empty state, seeded from the master
list when one is given (`none` models both `None` and a falsy dict). -/
def initAggregator (master_list : Option (List RosterStudent)) : AggState :=
  match master_list with
  | none => ⟨[], [], false⟩
  | some students => load_master_list ⟨[], [], false⟩ students

/-- The key `f"order_{order}"` used by the privacy branch. -/
def privacyKey (o : ℤ) : Key := some ("order_" ++ toString o)

/-- The per-observation body of the loop in `add_ocr_result`
(lines 86-119 of data_aggregator.py).  Returns the new state and whether
the observation was matched (`true`) or counted unmatched (`false`). -/
def processScore (scores_only : Bool) (st : AggState) (sd : ScoreData) :
    AggState × Bool :=
  match sd.student_id, sd.order with
  | none, some o =>
      ({ st with student_scores :=
          dictTouch st.student_scores (privacyKey o) (fun info =>
            let info2 := if info.order = none
              then { info with order := some o, name := none } else info
            { info2 with scores := info2.scores ++ [sd.score] }) }, true)
  | sid, _ =>
      if scores_only && st.has_master_list then
        if dictMem st.student_scores sid then
          ({ st with student_scores :=
              dictTouch st.student_scores sid (fun info =>
                { info with scores := info.scores ++ [sd.score] }) }, true)
        else
          (st, false)
      else
        ({ st with student_scores :=
            dictTouch st.student_scores sid (fun info =>
              let info2 := if info.order = none
                then { info with order := sd.order, name := sd.name } else info
              { info2 with scores := info2.scores ++ [sd.score] }) }, true)

/-- The state component of `processScore`. -/
def addOneScore (scores_only : Bool) (st : AggState) (sd : ScoreData) : AggState :=
  (processScore scores_only st sd).1

/-- `add_ocr_result(ocr_result, scores_only)`: skip failed results; default
`scores_only` to `has_master_list`; process every observation; append the
file name to the processed log and report success. -/
def add_ocr_result (st : AggState) (r : OCRResult)
    (scores_only : Option Bool := none) : AggState × Bool :=
  if !r.success then (st, false)
  else
    let so := scores_only.getD st.has_master_list
    let st2 := r.scores.foldl (addOneScore so) st
    ({ st2 with processed_files := st2.processed_files ++ [r.file_name] }, true)

/-- The state component of `add_ocr_result` with defaulted `scores_only`. -/
def addState (st : AggState) (r : OCRResult) : AggState :=
  (add_ocr_result st r).1

/-- `batch_add_results`: merge each result in input order, counting the
successful ones. -/
def batch_add_results (st : AggState) (rs : List OCRResult) : AggState × ℕ :=
  rs.foldl (fun p r =>
    match add_ocr_result p.1 r with
    | (st2, ok) => (st2, p.2 + if ok then 1 else 0)) (st, 0)

/-- The record returned by `get_statistics` (without the `processed_files`
echo, which merely repeats the state field). -/
structure Stats where
  total_students : ℕ
  total_files : ℕ
  avg_scores_per_student : ℚ
  students_with_all_scores : ℕ
deriving DecidableEq

/-- `get_statistics` (lines 184-218 of data_aggregator.py). -/
def get_statistics (st : AggState) : Stats :=
  if st.student_scores.length = 0 then ⟨0, 0, 0, 0⟩
  else
    let score_counts : List ℕ := st.student_scores.map (fun p => p.2.scores.length)
    ⟨st.student_scores.length,
     st.processed_files.length,
     round2 ((score_counts.sum : ℚ) / (score_counts.length : ℚ)),
     (score_counts.filter (fun c => c = st.processed_files.length)).length⟩

/-- `clear`: empty the entity dict and the processed log.  The
`has_master_list` flag is not touched. -/
def clear (st : AggState) : AggState :=
  { st with student_scores := [], processed_files := [] }

/-! ## CSV writer (src/csv_writer.py) -/

/-- One element of the `data` list consumed by `CSVWriter.write` (the shape
produced by `get_aggregated_data`). -/
structure Entity where
  student_id : Key
  order : Option ℤ
  name : Option String
  scores : List (Option ℤ)
deriving DecidableEq

/-- Rendering of an optional integer cell: the `csv` module writes `None`
as an empty cell and an integer via `str`. -/
def cellOfInt : Option ℤ → String
  | none => ""
  | some v => toString v

/-- Rendering of an optional string cell: `None` becomes an empty cell. -/
def cellOfStr : Option String → String
  | none => ""
  | some s => s

/-- `max(len(student["scores"]) for student in data)` — over naturals the
maximum of a nonempty list equals this fold from 0. -/
def maxScoresOf (data : List Entity) : ℕ :=
  (data.map (fun e => e.scores.length)).foldl max 0

/-- The header row built at lines 49-50 of csv_writer.py. -/
def csvHeaders (pfx : String) (max_scores : ℕ) : List String :=
  ["報告順序", "學號", "姓名"]
    ++ (List.range max_scores).map (fun i => pfx ++ toString (i + 1))

/-- One data row (lines 60-75): three identity cells, the score cells with
`None` rendered empty, right-padded with empty cells up to `max_scores`. -/
def entityRow (max_scores : ℕ) (e : Entity) : List String :=
  [cellOfInt e.order, cellOfStr e.student_id, cellOfStr e.name]
    ++ e.scores.map cellOfInt
    ++ List.replicate (max_scores - e.scores.length) ""

/-- `CSVWriter.write`: `none` models the early `return False` on empty
input (nothing written); `some rows` models the written header and data
rows. -/
def csvWrite (data : List Entity) (pfx : String) : Option (List (List String)) :=
  if data.isEmpty then none
  else some (csvHeaders pfx (maxScoresOf data) :: data.map (entityRow (maxScoresOf data)))

/-! ## Lemmas about the robust scorer -/

theorem sortedAsc_perm (S : List ℚ) : List.Perm (sortedAsc S) S :=
  List.mergeSort_perm S _

theorem sortedAsc_length (S : List ℚ) : (sortedAsc S).length = S.length :=
  (sortedAsc_perm S).length_eq

theorem sortedAsc_sum (S : List ℚ) : (sortedAsc S).sum = S.sum :=
  (sortedAsc_perm S).sum_eq

theorem sortedAsc_ne_nil (S : List ℚ) (h : S ≠ []) : sortedAsc S ≠ [] := by
  intro hc
  exact h ((hc ▸ sortedAsc_perm S).symm.eq_nil)

theorem sortedAsc_of_sorted {S : List ℚ} (h : S.Sorted (· ≤ ·)) : sortedAsc S = S :=
  List.mergeSort_eq_self h

theorem mem_of_mem_trimmedSlice {ss : List ℚ} {x : ℚ} (h : x ∈ trimmedSlice ss) :
    x ∈ ss := by
  unfold trimmedSlice at h
  split at h
  · exact List.mem_of_mem_drop (List.mem_of_mem_take h)
  · exact h

theorem calculate_trimmed_mean_eq (S : List ℚ) (h : S ≠ []) :
    calculate_trimmed_mean S =
      (if (trimmedSlice (sortedAsc S)).isEmpty then sortedAsc S
        else trimmedSlice (sortedAsc S)).sum /
      (if (trimmedSlice (sortedAsc S)).isEmpty then sortedAsc S
        else trimmedSlice (sortedAsc S)).length := by
  rw [calculate_trimmed_mean, if_neg (by simpa using h)]

theorem trimmedSlice_sortedAsc (S : List ℚ) :
    trimmedSlice (sortedAsc S) =
      if 0 < trimCount10 S.length then pySliceTrim (sortedAsc S) (trimCount10 S.length)
      else sortedAsc S := by
  rw [trimmedSlice, sortedAsc_length]

theorem pySliceTrim_zero (l : List ℚ) : pySliceTrim l 0 = l := by
  simp [pySliceTrim]

theorem trimmed_mean_as_mean (S : List ℚ) (h : S ≠ []) :
    ∃ T : List ℚ, T ≠ [] ∧ (∀ x ∈ T, x ∈ S) ∧
      calculate_trimmed_mean S = T.sum / T.length := by
  refine ⟨if (trimmedSlice (sortedAsc S)).isEmpty then sortedAsc S
    else trimmedSlice (sortedAsc S), ?_, ?_, calculate_trimmed_mean_eq S h⟩
  · split
    · exact sortedAsc_ne_nil S h
    · next hne => simpa using hne
  · intro x hx
    split at hx
    · exact (sortedAsc_perm S).mem_iff.mp hx
    · exact (sortedAsc_perm S).mem_iff.mp (mem_of_mem_trimmedSlice hx)

theorem le_mean_of_forall_le (T : List ℚ) (hT : T ≠ []) (c : ℚ)
    (hb : ∀ x ∈ T, c ≤ x) : c ≤ T.sum / T.length := by
  have hl : 0 < (T.length : ℚ) := by
    exact_mod_cast List.length_pos.mpr hT
  rw [le_div_iff₀ hl]
  calc c * T.length = T.length • c := by rw [nsmul_eq_mul]; ring
    _ ≤ T.sum := List.card_nsmul_le_sum T c hb

theorem mean_le_of_forall_le (T : List ℚ) (hT : T ≠ []) (c : ℚ)
    (hb : ∀ x ∈ T, x ≤ c) : T.sum / T.length ≤ c := by
  have hl : 0 < (T.length : ℚ) := by
    exact_mod_cast List.length_pos.mpr hT
  rw [div_le_iff₀ hl]
  calc T.sum ≤ T.length • c := List.sum_le_card_nsmul T c hb
    _ = c * T.length := by rw [nsmul_eq_mul]; ring

/-! ## Claim theorems for the robust scorer -/

/-- Claim C1: for every list of numeric scores with trim fraction 0.10, the
empty list yields 0.0; otherwise, with trim count = floor(n/10) taken from
each end of the ascending-sorted list, a nonempty remaining slice yields
the mean of the slice, and an empty remaining slice yields the mean of the
full untrimmed list; the function is total, so no error is raised. -/
theorem claim_C1_trimmed_mean_spec (S : List ℚ) :
    (S = [] → calculate_trimmed_mean S = 0)
    ∧ (S ≠ [] →
        (pySliceTrim (sortedAsc S) (trimCount10 S.length) ≠ [] →
          calculate_trimmed_mean S
            = (pySliceTrim (sortedAsc S) (trimCount10 S.length)).sum
              / (pySliceTrim (sortedAsc S) (trimCount10 S.length)).length)
        ∧ (pySliceTrim (sortedAsc S) (trimCount10 S.length) = [] →
          calculate_trimmed_mean S = S.sum / S.length)) := by
  constructor
  · intro h; subst h; rfl
  · intro hne
    have hkey := calculate_trimmed_mean_eq S hne
    rw [trimmedSlice_sortedAsc] at hkey
    by_cases htc : 0 < trimCount10 S.length
    · rw [if_pos htc] at hkey
      constructor
      · intro hslice
        rwa [if_neg (by simpa using hslice)] at hkey
      · intro hslice
        rw [if_pos (by simpa using hslice)] at hkey
        rw [hkey, sortedAsc_sum, sortedAsc_length]
    · rw [if_neg htc] at hkey
      have hslice : pySliceTrim (sortedAsc S) (trimCount10 S.length) = sortedAsc S := by
        rw [Nat.eq_zero_of_not_pos htc, pySliceTrim_zero]
      constructor
      · intro _
        rw [hslice, hkey, if_neg (by simpa using sortedAsc_ne_nil S hne)]
      · intro hc
        exact absurd (hslice ▸ hc) (sortedAsc_ne_nil S hne)

/-- Witness for C1 at concrete inputs: the empty list gives 0, and
`[5, 6, 7]` (trim count 0, slice nonempty) gives mean 6. -/
theorem claim_C1_witness :
    calculate_trimmed_mean [] = 0 ∧ calculate_trimmed_mean [5, 6, 7] = 6 := by
  refine ⟨(claim_C1_trimmed_mean_spec []).1 rfl, ?_⟩
  have hs : sortedAsc [5, 6, 7] = [5, 6, 7] := sortedAsc_of_sorted (by decide)
  have htc : trimCount10 ([5, 6, 7] : List ℚ).length = 0 := by
    norm_num [trimCount10]
  have hslice : pySliceTrim (sortedAsc [5, 6, 7])
      (trimCount10 ([5, 6, 7] : List ℚ).length) = [5, 6, 7] := by
    rw [htc, pySliceTrim_zero, hs]
  have h := ((claim_C1_trimmed_mean_spec [5, 6, 7]).2 (by decide)).1
    (by rw [hslice]; decide)
  rw [hslice] at h
  rw [h]
  norm_num

/-- Claim C7: the final score is round(trimmed_mean * 10) under the single
consistent round-half-to-even rule; on ten identical scores of 7 the trim
count is 1 per side, the trimmed mean is 7, and the final score is 70. -/
theorem claim_C7_final_score (S : List ℚ) :
    final_score S = roundHalfEven (calculate_trimmed_mean S * 10)
    ∧ trimCount10 10 = 1
    ∧ calculate_trimmed_mean [7, 7, 7, 7, 7, 7, 7, 7, 7, 7] = 7
    ∧ final_score [7, 7, 7, 7, 7, 7, 7, 7, 7, 7] = 70 := by
  have hs : sortedAsc [7, 7, 7, 7, 7, 7, 7, 7, 7, 7] = [7, 7, 7, 7, 7, 7, 7, 7, 7, 7] :=
    sortedAsc_of_sorted (by decide)
  have htc10 : trimCount10 10 = 1 := by norm_num [trimCount10]
  have hts : trimmedSlice [7, 7, 7, 7, 7, 7, 7, 7, 7, 7] = [7, 7, 7, 7, 7, 7, 7, 7] := by
    unfold trimmedSlice
    rw [show ([7, 7, 7, 7, 7, 7, 7, 7, 7, 7] : List ℚ).length = 10 from rfl, htc10]
    decide
  have htm : calculate_trimmed_mean [7, 7, 7, 7, 7, 7, 7, 7, 7, 7] = 7 := by
    rw [calculate_trimmed_mean_eq _ (by decide), hs, hts]
    norm_num
  refine ⟨rfl, htc10, htm, ?_⟩
  show roundHalfEven (calculate_trimmed_mean [7, 7, 7, 7, 7, 7, 7, 7, 7, 7] * 10) = 70
  rw [htm]
  norm_num [roundHalfEven]

/-- Claim C8: for every nonempty list of scores, the trimmed mean lies
between the minimum and the maximum of the list, inclusive. -/
theorem claim_C8_trimmed_mean_bounds (S : List ℚ) (m M : ℚ)
    (hmin : S.minimum = (m : WithTop ℚ)) (hmax : S.maximum = (M : WithBot ℚ)) :
    m ≤ calculate_trimmed_mean S ∧ calculate_trimmed_mean S ≤ M := by
  have hne : S ≠ [] := by
    intro h
    subst h
    rw [List.minimum_nil] at hmin
    exact WithTop.coe_ne_top hmin.symm
  obtain ⟨T, hT, hsub, heq⟩ := trimmed_mean_as_mean S hne
  rw [heq]
  exact ⟨le_mean_of_forall_le T hT m
      (fun x hx => List.minimum_le_of_mem (hsub x hx) hmin),
    mean_le_of_forall_le T hT M
      (fun x hx => List.le_maximum_of_mem (hsub x hx) hmax)⟩

/-- Witness for C8 at the concrete list `[1, 2, 3]`. -/
theorem claim_C8_witness :
    (1 : ℚ) ≤ calculate_trimmed_mean [1, 2, 3]
    ∧ calculate_trimmed_mean [1, 2, 3] ≤ 3 :=
  claim_C8_trimmed_mean_bounds [1, 2, 3] 1 3 (by decide) (by decide)

/-! ## Lemmas about the dictionary model -/

theorem dictFind_touch_self (m : List (Key × StudentInfo)) (k : Key)
    (f : StudentInfo → StudentInfo) :
    dictFind (dictTouch m k f) k = some (f ((dictFind m k).getD defaultInfo)) := by
  induction m with
  | nil => simp [dictTouch, dictFind]
  | cons p rest ih =>
    obtain ⟨k2, v⟩ := p
    by_cases h : k2 = k
    · subst h
      simp [dictTouch, dictFind]
    · simp [dictTouch, dictFind, h, ih]

theorem dictFind_touch_ne (m : List (Key × StudentInfo)) (k k2 : Key)
    (f : StudentInfo → StudentInfo) (h : k2 ≠ k) :
    dictFind (dictTouch m k f) k2 = dictFind m k2 := by
  induction m with
  | nil => simp [dictTouch, dictFind, Ne.symm h]
  | cons p rest ih =>
    obtain ⟨k3, v⟩ := p
    by_cases hk : k3 = k
    · subst hk
      simp [dictTouch, dictFind, Ne.symm h]
    · simp only [dictTouch, if_neg hk]
      by_cases hk2 : k3 = k2 <;> simp [dictFind, hk2, ih]

theorem dictTouch_of_not_mem (m : List (Key × StudentInfo)) (k : Key)
    (f : StudentInfo → StudentInfo) (h : dictMem m k = false) :
    dictTouch m k f = m ++ [(k, f defaultInfo)] := by
  induction m with
  | nil => simp [dictTouch]
  | cons p rest ih =>
    obtain ⟨k2, v⟩ := p
    unfold dictMem dictFind at h
    by_cases hk : k2 = k
    · simp [hk] at h
    · simp only [dictTouch, if_neg hk, List.cons_append, List.cons.injEq, true_and]
      exact ih (by simpa [dictMem, hk] using h)

theorem dictKeys_touch_of_mem (m : List (Key × StudentInfo)) (k : Key)
    (f : StudentInfo → StudentInfo) (h : dictMem m k = true) :
    dictKeys (dictTouch m k f) = dictKeys m := by
  induction m with
  | nil => simp [dictMem, dictFind] at h
  | cons p rest ih =>
    obtain ⟨k2, v⟩ := p
    by_cases hk : k2 = k
    · simp [dictTouch, hk, dictKeys]
    · simp only [dictTouch, if_neg hk, dictKeys, List.map_cons, List.cons.injEq, true_and]
      exact ih (by simpa [dictMem, dictFind, hk] using h)

theorem dictMem_append_single (m : List (Key × StudentInfo)) (k k2 : Key)
    (v : StudentInfo) :
    dictMem (m ++ [(k, v)]) k2 = (dictMem m k2 || decide (k2 = k)) := by
  induction m with
  | nil =>
    by_cases h : k = k2
    · subst h
      simp [dictMem, dictFind]
    · simp [dictMem, dictFind, h, Ne.symm h]
  | cons p rest ih =>
    obtain ⟨k3, w⟩ := p
    by_cases hk : k3 = k2
    · subst hk
      simp [dictMem, dictFind]
    · simp only [List.cons_append, dictMem, dictFind, if_neg hk]
      exact ih

/-! ## Frame lemmas for the aggregator operations -/

theorem addOneScore_hm (so : Bool) (st : AggState) (sd : ScoreData) :
    (addOneScore so st sd).has_master_list = st.has_master_list
    ∧ (addOneScore so st sd).processed_files = st.processed_files := by
  obtain ⟨sid, ord, nm, sc⟩ := sd
  cases sid <;> cases ord <;>
      unfold addOneScore processScore <;> dsimp only <;> (try split_ifs) <;>
    exact ⟨rfl, rfl⟩

theorem foldl_addOneScore_hm (so : Bool) (l : List ScoreData) (st : AggState) :
    (l.foldl (addOneScore so) st).has_master_list = st.has_master_list
    ∧ (l.foldl (addOneScore so) st).processed_files = st.processed_files := by
  induction l generalizing st with
  | nil => exact ⟨rfl, rfl⟩
  | cons sd rest ih =>
    rw [List.foldl_cons]
    obtain ⟨h1, h2⟩ := ih (addOneScore so st sd)
    obtain ⟨g1, g2⟩ := addOneScore_hm so st sd
    exact ⟨h1.trans g1, h2.trans g2⟩

theorem addState_hm (st : AggState) (r : OCRResult) :
    (addState st r).has_master_list = st.has_master_list := by
  unfold addState add_ocr_result
  split
  · rfl
  · exact (foldl_addOneScore_hm _ _ _).1

theorem addState_files (st : AggState) (r : OCRResult) :
    (addState st r).processed_files
      = if r.success then st.processed_files ++ [r.file_name]
        else st.processed_files := by
  unfold addState add_ocr_result
  rcases hr : r.success with _ | _
  · simp [hr]
  · simp only [hr, Bool.not_true, Bool.false_eq_true, if_false, if_true]
    exact congrArg (· ++ [r.file_name]) (foldl_addOneScore_hm _ _ _).2

theorem batch_fst (st : AggState) (rs : List OCRResult) :
    (batch_add_results st rs).1 = rs.foldl addState st := by
  suffices h : ∀ (n : ℕ) (st : AggState), (rs.foldl (fun p r =>
      match add_ocr_result p.1 r with
      | (st2, ok) => (st2, p.2 + if ok then 1 else 0)) (st, n)).1
        = rs.foldl addState st from h 0 st
  induction rs with
  | nil => intro n st; rfl
  | cons r rest ih =>
    intro n st
    rcases hx : add_ocr_result st r with ⟨st2, ok⟩
    have hstep : addState st r = st2 := by simp [addState, hx]
    simp only [List.foldl_cons, hx, hstep]
    exact ih _ st2

theorem foldl_addState_hm (rs : List OCRResult) (st : AggState) :
    (rs.foldl addState st).has_master_list = st.has_master_list := by
  induction rs generalizing st with
  | nil => rfl
  | cons r rest ih => rw [List.foldl_cons, ih, addState_hm]

/-! ## Claim C4 -/

/-- Claim C4 (amended): for an aggregator constructed without a roster,
merging a document list, clearing, and merging the same list again yields
exactly the same aggregator result (state and count) as merging the list
once on a fresh aggregator; with a roster the claim fails because clear
drops the roster-seeded entities while keeping the roster flag. -/
theorem claim_C4_replay_after_clear (docs : List OCRResult) :
    batch_add_results (clear (batch_add_results (initAggregator none) docs).1) docs
      = batch_add_results (initAggregator none) docs := by
  have hm : (batch_add_results (initAggregator none) docs).1.has_master_list = false := by
    rw [batch_fst]
    exact foldl_addState_hm docs _
  have h : clear (batch_add_results (initAggregator none) docs).1 = initAggregator none := by
    unfold clear
    rw [hm]
    rfl
  rw [h]

/-- Counterexample for C4 as stated: with a roster containing student s1,
merging document A (one observation for s1), clearing, and merging A again
leaves no entity for s1 at all, while the single fresh merge gives s1 the
observation sequence [5]. -/
theorem claim_C4_counterexample :
    dictFind (batch_add_results (clear (batch_add_results
        (initAggregator (some [⟨1, "s1", "A"⟩]))
        [⟨true, "a", [⟨some "s1", some 1, some "A", some 5⟩]⟩]).1)
        [⟨true, "a", [⟨some "s1", some 1, some "A", some 5⟩]⟩]).1.student_scores
      (some "s1") = none
    ∧ dictFind (batch_add_results (initAggregator (some [⟨1, "s1", "A"⟩]))
        [⟨true, "a", [⟨some "s1", some 1, some "A", some 5⟩]⟩]).1.student_scores
      (some "s1") = some ⟨some 1, some "A", [some 5]⟩ := by
  decide

/-! ## Branch lemmas for processScore -/

theorem processScore_keyed_roster (st : AggState) (sd : ScoreData) (s : String)
    (hm : st.has_master_list = true) (hsid : sd.student_id = some s) :
    processScore true st sd =
      if dictMem st.student_scores (some s) then
        ({ st with student_scores :=
            dictTouch st.student_scores (some s) (fun info =>
              { info with scores := info.scores ++ [sd.score] }) }, true)
      else (st, false) := by
  obtain ⟨sid, ord, nm, sc⟩ := sd
  dsimp only at hsid
  subst hsid
  cases ord <;> (unfold processScore; dsimp only; rw [hm]) <;> rfl

theorem processScore_keyless_roster (st : AggState) (sd : ScoreData)
    (hm : st.has_master_list = true) (hsid : sd.student_id = none)
    (hord : sd.order = none) :
    processScore true st sd =
      if dictMem st.student_scores none then
        ({ st with student_scores :=
            dictTouch st.student_scores none (fun info =>
              { info with scores := info.scores ++ [sd.score] }) }, true)
      else (st, false) := by
  obtain ⟨sid, ord, nm, sc⟩ := sd
  dsimp only at hsid hord
  subst hsid
  subst hord
  unfold processScore
  dsimp only
  rw [hm]
  rfl

theorem processScore_open_keyed (so : Bool) (st : AggState) (sd : ScoreData)
    (s : String) (hm : st.has_master_list = false) (hsid : sd.student_id = some s) :
    processScore so st sd =
      ({ st with student_scores :=
          dictTouch st.student_scores (some s) (fun info =>
            let info2 := if info.order = none
              then { info with order := sd.order, name := sd.name } else info
            { info2 with scores := info2.scores ++ [sd.score] }) }, true) := by
  obtain ⟨sid, ord, nm, sc⟩ := sd
  dsimp only at hsid
  subst hsid
  cases ord <;>
    (unfold processScore; dsimp only;
      simp only [hm, Bool.and_false, Bool.false_eq_true, if_false])

/-! ## Preservation of an established order and name (claim C6 machinery) -/

theorem processScore_preserves_entity (so : Bool) (st : AggState) (sd : ScoreData)
    (k : Key) (info : StudentInfo) (o : ℤ)
    (hm : st.has_master_list = false)
    (hfind : dictFind st.student_scores k = some info)
    (hord : info.order = some o) :
    ∃ tail, dictFind (addOneScore so st sd).student_scores k
      = some ⟨some o, info.name, info.scores ++ tail⟩ := by
  obtain ⟨sid, ord, nm, sc⟩ := sd
  have hvia : ∀ (tk : Key) (f2 : Option ℤ) (f3 : Option String),
      ∃ tail, dictFind (dictTouch st.student_scores tk (fun i =>
          let i2 := if i.order = none then { i with order := f2, name := f3 } else i
          { i2 with scores := i2.scores ++ [sc] })) k
        = some ⟨some o, info.name, info.scores ++ tail⟩ := by
    intro tk f2 f3
    rcases eq_or_ne k tk with hk | hk
    · subst hk
      refine ⟨[sc], ?_⟩
      rw [dictFind_touch_self, hfind]
      simp [Option.getD, hord]
    · refine ⟨[], ?_⟩
      rw [dictFind_touch_ne _ _ _ _ hk, hfind, List.append_nil, ← hord]
  cases sid with
  | none =>
    cases ord with
    | none =>
      unfold addOneScore processScore
      dsimp only
      simp only [hm, Bool.and_false, Bool.false_eq_true, if_false]
      exact hvia none none nm
    | some o2 =>
      unfold addOneScore processScore
      dsimp only
      exact hvia (privacyKey o2) (some o2) none
  | some s =>
    unfold addOneScore processScore
    dsimp only
    simp only [hm, Bool.and_false, Bool.false_eq_true, if_false]
    exact hvia (some s) ord nm

theorem foldl_preserves_entity (so : Bool) (l : List ScoreData) (st : AggState)
    (k : Key) (info : StudentInfo) (o : ℤ)
    (hm : st.has_master_list = false)
    (hfind : dictFind st.student_scores k = some info)
    (hord : info.order = some o) :
    ∃ tail, dictFind (l.foldl (addOneScore so) st).student_scores k
      = some ⟨some o, info.name, info.scores ++ tail⟩ := by
  induction l generalizing st info with
  | nil =>
    refine ⟨[], ?_⟩
    rw [List.foldl_nil, hfind, List.append_nil, ← hord]
  | cons sd rest ih =>
    obtain ⟨t1, h1⟩ := processScore_preserves_entity so st sd k info o hm hfind hord
    have hm1 : (addOneScore so st sd).has_master_list = false :=
      (addOneScore_hm so st sd).1.trans hm
    obtain ⟨t2, h2⟩ := ih (addOneScore so st sd) ⟨some o, info.name, info.scores ++ t1⟩
      hm1 h1 rfl
    refine ⟨t1 ++ t2, ?_⟩
    rw [List.foldl_cons, h2]
    simp

theorem addState_preserves_entity (st : AggState) (r : OCRResult)
    (k : Key) (info : StudentInfo) (o : ℤ)
    (hm : st.has_master_list = false)
    (hfind : dictFind st.student_scores k = some info)
    (hord : info.order = some o) :
    ∃ tail, dictFind (addState st r).student_scores k
      = some ⟨some o, info.name, info.scores ++ tail⟩ := by
  unfold addState add_ocr_result
  split
  · refine ⟨[], ?_⟩
    dsimp only
    rw [hfind, List.append_nil, ← hord]
  · dsimp only
    exact foldl_preserves_entity st.has_master_list r.scores st k info o hm hfind hord

theorem batch_preserves_entity (docs : List OCRResult) (st : AggState)
    (k : Key) (info : StudentInfo) (o : ℤ)
    (hm : st.has_master_list = false)
    (hfind : dictFind st.student_scores k = some info)
    (hord : info.order = some o) :
    ∃ tail, dictFind (batch_add_results st docs).1.student_scores k
      = some ⟨some o, info.name, info.scores ++ tail⟩ := by
  rw [batch_fst]
  induction docs generalizing st info with
  | nil =>
    refine ⟨[], ?_⟩
    rw [List.foldl_nil, hfind, List.append_nil, ← hord]
  | cons r rest ih =>
    obtain ⟨t1, h1⟩ := addState_preserves_entity st r k info o hm hfind hord
    have hm1 : (addState st r).has_master_list = false := (addState_hm st r).trans hm
    obtain ⟨t2, h2⟩ := ih (addState st r) ⟨some o, info.name, info.scores ++ t1⟩ hm1 h1 rfl
    refine ⟨t1 ++ t2, ?_⟩
    rw [List.foldl_cons, h2]
    simp

/-! ## Claim C6 -/

/-- Claim C6 (amended): in open mode (no roster), a first-seen observation
with key s creates the entity at the end of the dict with exactly the
order, name and single score of that observation; and once an entity holds
a non-null order, no later merging ever changes its order or name, and its
observations list only grows by appended elements.  The unamended claim
fails when the first-seen observation has a null order: a later observation
then overwrites order and name. -/
theorem claim_C6_first_seen_wins :
    (∀ (so : Bool) (st : AggState) (sd : ScoreData) (s : String),
      st.has_master_list = false →
      sd.student_id = some s →
      dictFind st.student_scores (some s) = none →
      processScore so st sd
        = ({ st with student_scores :=
            st.student_scores ++ [(some s, ⟨sd.order, sd.name, [sd.score]⟩)] }, true))
    ∧ (∀ (docs : List OCRResult) (st : AggState) (k : Key) (info : StudentInfo) (o : ℤ),
      st.has_master_list = false →
      dictFind st.student_scores k = some info →
      info.order = some o →
      ∃ tail, dictFind (batch_add_results st docs).1.student_scores k
        = some ⟨some o, info.name, info.scores ++ tail⟩) := by
  constructor
  · intro so st sd s hm hsid hfind
    rw [processScore_open_keyed so st sd s hm hsid,
      dictTouch_of_not_mem _ _ _ (by simp [dictMem, hfind])]
    rfl
  · intro docs st k info o hm hfind hord
    exact batch_preserves_entity docs st k info o hm hfind hord

/-- Witness for C6: a first observation for key a creates the entity with
its order, name and score; with an established non-null order, merging a
later disagreeing document only appends to the observations. -/
theorem claim_C6_witness :
    processScore false (initAggregator none) ⟨some "a", some 1, some "X", some 5⟩
      = ({ initAggregator none with student_scores :=
          (initAggregator none).student_scores
            ++ [(some "a", ⟨some 1, some "X", [some 5]⟩)] }, true)
    ∧ ∃ tail, dictFind (batch_add_results
        ⟨[(some "a", ⟨some 1, some "X", [some 1]⟩)], ["d1"], false⟩
        [⟨true, "d2", [⟨some "a", some 2, some "Y", some 2⟩]⟩]).1.student_scores (some "a")
      = some ⟨some 1, some "X", [some 1] ++ tail⟩ := by
  constructor
  · exact claim_C6_first_seen_wins.1 false (initAggregator none)
      ⟨some "a", some 1, some "X", some 5⟩ "a" rfl rfl rfl
  · exact claim_C6_first_seen_wins.2
      [⟨true, "d2", [⟨some "a", some 2, some "Y", some 2⟩]⟩]
      ⟨[(some "a", ⟨some 1, some "X", [some 1]⟩)], ["d1"], false⟩
      (some "a") ⟨some 1, some "X", [some 1]⟩ 1 rfl rfl rfl

/-- Counterexample for C6 as stated: open mode, first-seen observation for
key a has a null order and name X; a second observation with order 2 and
name Y then overwrites both order and name, so first-seen values do not
survive. -/
theorem claim_C6_counterexample :
    dictFind (batch_add_results (initAggregator none)
      [⟨true, "d1", [⟨some "a", none, some "X", some 1⟩]⟩,
       ⟨true, "d2", [⟨some "a", some 2, some "Y", some 2⟩]⟩]).1.student_scores (some "a")
      = some ⟨some 2, some "Y", [some 1, some 2]⟩ := by
  decide

/-! ## Key-set preservation under a roster (claim C2 machinery) -/

theorem keys_addOneScore_keyed (st : AggState) (sd : ScoreData)
    (hm : st.has_master_list = true) (hkeyed : sd.student_id ≠ none) :
    dictKeys (addOneScore true st sd).student_scores = dictKeys st.student_scores := by
  obtain ⟨s, hs⟩ := Option.ne_none_iff_exists'.mp hkeyed
  unfold addOneScore
  rw [processScore_keyed_roster st sd s hm hs]
  split
  · next hmem =>
    dsimp only
    exact dictKeys_touch_of_mem _ _ _ hmem
  · rfl

theorem keys_foldl_keyed (l : List ScoreData) (st : AggState)
    (hm : st.has_master_list = true) (hkeyed : ∀ sd ∈ l, sd.student_id ≠ none) :
    dictKeys (l.foldl (addOneScore true) st).student_scores
      = dictKeys st.student_scores := by
  induction l generalizing st with
  | nil => rfl
  | cons sd rest ih =>
    rw [List.foldl_cons]
    have hm1 : (addOneScore true st sd).has_master_list = true :=
      (addOneScore_hm true st sd).1.trans hm
    rw [ih (addOneScore true st sd) hm1
      (fun x hx => hkeyed x (List.mem_cons_of_mem _ hx))]
    exact keys_addOneScore_keyed st sd hm (hkeyed sd (List.mem_cons_self _ _))

theorem keys_addState_keyed (st : AggState) (r : OCRResult)
    (hm : st.has_master_list = true)
    (hkeyed : ∀ sd ∈ r.scores, sd.student_id ≠ none) :
    dictKeys (addState st r).student_scores = dictKeys st.student_scores := by
  unfold addState add_ocr_result
  split
  · rfl
  · dsimp only
    rw [hm]
    exact keys_foldl_keyed r.scores st hm hkeyed

theorem keys_batch_keyed (docs : List OCRResult) (st : AggState)
    (hm : st.has_master_list = true)
    (hkeyed : ∀ r ∈ docs, ∀ sd ∈ r.scores, sd.student_id ≠ none) :
    dictKeys (batch_add_results st docs).1.student_scores
      = dictKeys st.student_scores := by
  rw [batch_fst]
  induction docs generalizing st with
  | nil => rfl
  | cons r rest ih =>
    rw [List.foldl_cons]
    have hm1 : (addState st r).has_master_list = true := (addState_hm st r).trans hm
    rw [ih (addState st r) hm1 (fun x hx => hkeyed x (List.mem_cons_of_mem _ hx))]
    exact keys_addState_keyed st r hm (hkeyed r (List.mem_cons_self _ _))

theorem load_foldl_keys (students : List RosterStudent) :
    ∀ (m : List (Key × StudentInfo)),
    (students.map (fun s => (some s.student_id : Key))).Nodup →
    (∀ s ∈ students, dictMem m (some s.student_id) = false) →
    dictKeys (students.foldl (fun m2 s =>
      dictTouch m2 (some s.student_id) (fun info =>
        { info with order := some s.order, name := some s.name })) m)
      = dictKeys m ++ students.map (fun s => (some s.student_id : Key)) := by
  induction students with
  | nil =>
    intro m _ _
    simp
  | cons s rest ih =>
    intro m hnd hmem
    rw [List.foldl_cons,
      dictTouch_of_not_mem _ _ _ (hmem s (List.mem_cons_self _ _))]
    have hmem2 : ∀ t ∈ rest,
        dictMem (m ++ [(some s.student_id, (fun info =>
          { info with order := some s.order, name := some s.name }) defaultInfo)])
          (some t.student_id) = false := by
      intro t ht
      rw [dictMem_append_single]
      have h1 : dictMem m (some t.student_id) = false :=
        hmem t (List.mem_cons_of_mem _ ht)
      have h2 : (some t.student_id : Key) ≠ some s.student_id := by
        intro hc
        have h3 : (some s.student_id : Key)
            ∈ rest.map (fun u => (some u.student_id : Key)) := by
          rw [← hc]
          exact List.mem_map_of_mem _ ht
        exact (List.nodup_cons.mp hnd).1 h3
      simp [h1, h2]
    rw [ih _ (List.Nodup.of_cons hnd) hmem2]
    simp [dictKeys]

theorem initAggregator_keys (roster : List RosterStudent)
    (hnd : (roster.map (fun s => (some s.student_id : Key))).Nodup) :
    dictKeys (initAggregator (some roster)).student_scores
      = roster.map (fun s => (some s.student_id : Key)) := by
  unfold initAggregator load_master_list
  dsimp only
  rw [load_foldl_keys roster [] hnd (fun s _ => rfl)]
  rfl

theorem stats_total_students (st : AggState) :
    (get_statistics st).total_students = st.student_scores.length := by
  unfold get_statistics
  split
  · next h => exact h.symm
  · rfl

/-! ## Claim C2 -/

/-- Claim C2 (amended): with an active roster (and scores_only defaulted,
as merge_documents does), an observation that carries a student_key not
currently in the dict is rejected with no state change; and for documents
whose observations all carry a student_key, merging never changes the key
set, so the entities are exactly the roster-seeded ones (assuming distinct
roster keys) and total_students equals the roster size.  The unamended
claim fails for observations without a student_key: the privacy branch
creates order_N entities even when a roster is active. -/
theorem claim_C2_roster_enforcement :
    (∀ (st : AggState) (sd : ScoreData) (s : String),
      st.has_master_list = true →
      sd.student_id = some s →
      dictMem st.student_scores (some s) = false →
      processScore true st sd = (st, false))
    ∧ (∀ (roster : List RosterStudent) (docs : List OCRResult),
      (roster.map (fun s => (some s.student_id : Key))).Nodup →
      (∀ r ∈ docs, ∀ sd ∈ r.scores, sd.student_id ≠ none) →
      dictKeys (batch_add_results (initAggregator (some roster)) docs).1.student_scores
        = roster.map (fun s => (some s.student_id : Key))
      ∧ (get_statistics (batch_add_results
          (initAggregator (some roster)) docs).1).total_students
        = roster.length) := by
  constructor
  · intro st sd s hm hsid hmem
    rw [processScore_keyed_roster st sd s hm hsid, if_neg (by simp [hmem])]
  · intro roster docs hnd hkeyed
    have hkeys : dictKeys (batch_add_results
        (initAggregator (some roster)) docs).1.student_scores
        = roster.map (fun s => (some s.student_id : Key)) := by
      rw [keys_batch_keyed docs _ rfl hkeyed]
      exact initAggregator_keys roster hnd
    refine ⟨hkeys, ?_⟩
    rw [stats_total_students]
    have hlen := congrArg List.length hkeys
    simpa [dictKeys] using hlen

/-- Witness for C2: with roster [s1], an observation keyed zz is rejected
without state change, and merging a document keyed s1 keeps the key set at
exactly [s1] with total_students 1. -/
theorem claim_C2_witness :
    processScore true (initAggregator (some [⟨1, "s1", "A"⟩]))
      ⟨some "zz", some 9, none, some 4⟩
      = (initAggregator (some [⟨1, "s1", "A"⟩]), false)
    ∧ dictKeys (batch_add_results (initAggregator (some [⟨1, "s1", "A"⟩]))
        [⟨true, "a", [⟨some "s1", some 1, some "A", some 5⟩]⟩]).1.student_scores
      = [some "s1"]
    ∧ (get_statistics (batch_add_results (initAggregator (some [⟨1, "s1", "A"⟩]))
        [⟨true, "a", [⟨some "s1", some 1, some "A", some 5⟩]⟩]).1).total_students
      = 1 := by
  have h2 := claim_C2_roster_enforcement.2 [⟨1, "s1", "A"⟩]
    [⟨true, "a", [⟨some "s1", some 1, some "A", some 5⟩]⟩] (by decide) (by decide)
  exact ⟨claim_C2_roster_enforcement.1 _ _ "zz" rfl rfl (by decide), h2.1, h2.2⟩

/-- Counterexample for C2 as stated: with roster [s1], merging a document
holding one privacy-mode observation (no student_key, order 3) creates the
new entity order_3, so the entity set is not the roster key set and
total_students is 2, not the roster size 1. -/
theorem claim_C2_counterexample :
    dictKeys (batch_add_results (initAggregator (some [⟨1, "s1", "A"⟩]))
      [⟨true, "p", [⟨none, some 3, none, some 5⟩]⟩]).1.student_scores
      = [some "s1", some "order_3"]
    ∧ (get_statistics (batch_add_results (initAggregator (some [⟨1, "s1", "A"⟩]))
      [⟨true, "p", [⟨none, some 3, none, some 5⟩]⟩]).1).total_students ≠ 1 := by
  decide

/-! ## The None key never appears under an active roster (claim C3 machinery) -/

theorem addOneScore_none_not_mem (st : AggState) (sd : ScoreData)
    (hm : st.has_master_list = true)
    (h : dictMem st.student_scores none = false) :
    dictMem (addOneScore true st sd).student_scores none = false := by
  obtain ⟨sid, ord, nm, sc⟩ := sd
  cases sid with
  | none =>
    cases ord with
    | none =>
      unfold addOneScore
      rw [processScore_keyless_roster st ⟨none, none, nm, sc⟩ hm rfl rfl,
        if_neg (by simp [h])]
      exact h
    | some o2 =>
      unfold addOneScore processScore
      dsimp only
      unfold dictMem
      rw [dictFind_touch_ne _ _ _ _ (by simp [privacyKey] : (none : Key) ≠ privacyKey o2)]
      exact h
  | some s =>
    unfold addOneScore
    rw [processScore_keyed_roster st ⟨some s, ord, nm, sc⟩ s hm rfl]
    split
    · dsimp only
      unfold dictMem
      rw [dictFind_touch_ne _ _ _ _ (by simp : (none : Key) ≠ some s)]
      exact h
    · exact h

theorem foldl_none_not_mem (l : List ScoreData) (st : AggState)
    (hm : st.has_master_list = true)
    (h : dictMem st.student_scores none = false) :
    dictMem (l.foldl (addOneScore true) st).student_scores none = false := by
  induction l generalizing st with
  | nil => exact h
  | cons sd rest ih =>
    rw [List.foldl_cons]
    exact ih (addOneScore true st sd) ((addOneScore_hm true st sd).1.trans hm)
      (addOneScore_none_not_mem st sd hm h)

/-! ## Claim C3 -/

/-- Claim C3 (amended): under an active roster (scores_only defaulted) with
no None-keyed entity, an observation carrying neither a student_key nor a
sequence_order is rejected: the state is unchanged, the observation is
reported unmatched, and processing of the remaining observations of the
document continues as if the invalid one were absent — never fatal.  The
unamended claim fails without a roster: open mode merges such an
observation into an entity keyed by the missing value. -/
theorem claim_C3_invalid_observation (st : AggState) (pre post : List ScoreData)
    (sd : ScoreData)
    (hm : st.has_master_list = true)
    (hmem : dictMem st.student_scores none = false)
    (hsid : sd.student_id = none) (hord : sd.order = none) :
    processScore true (pre.foldl (addOneScore true) st) sd
      = (pre.foldl (addOneScore true) st, false)
    ∧ (pre ++ sd :: post).foldl (addOneScore true) st
      = (pre ++ post).foldl (addOneScore true) st := by
  have hm1 : (pre.foldl (addOneScore true) st).has_master_list = true :=
    (foldl_addOneScore_hm true pre st).1.trans hm
  have hmem1 : dictMem (pre.foldl (addOneScore true) st).student_scores none = false :=
    foldl_none_not_mem pre st hm hmem
  have hstep : processScore true (pre.foldl (addOneScore true) st) sd
      = (pre.foldl (addOneScore true) st, false) := by
    rw [processScore_keyless_roster _ sd hm1 hsid hord, if_neg (by simp [hmem1])]
  refine ⟨hstep, ?_⟩
  rw [List.foldl_append, List.foldl_append, List.foldl_cons]
  congr 1
  show (processScore true (pre.foldl (addOneScore true) st) sd).1
    = pre.foldl (addOneScore true) st
  rw [hstep]

/-- Witness for C3: with roster [s1], the observation with neither key nor
order is rejected with no state change. -/
theorem claim_C3_witness :
    processScore true (initAggregator (some [⟨1, "s1", "A"⟩]))
      ⟨none, none, some "X", some 5⟩
      = (initAggregator (some [⟨1, "s1", "A"⟩]), false) :=
  (claim_C3_invalid_observation (initAggregator (some [⟨1, "s1", "A"⟩])) [] []
    ⟨none, none, some "X", some 5⟩ rfl (by decide) rfl rfl).1

/-- Counterexample for C3 as stated: without a roster, an observation with
neither student_key nor sequence_order is merged: it creates an entity
under the None key holding its score, instead of being rejected. -/
theorem claim_C3_counterexample :
    dictFind (batch_add_results (initAggregator none)
      [⟨true, "d", [⟨none, none, some "X", some 5⟩]⟩]).1.student_scores none
      = some ⟨none, some "X", [some 5]⟩ := by
  decide

/-! ## Rejection on an empty roster-mode dict (claim C10 machinery) -/

theorem foldl_keyed_empty_state (l : List ScoreData) (st : AggState)
    (hm : st.has_master_list = true) (hempty : st.student_scores = [])
    (hkeyed : ∀ sd ∈ l, sd.student_id ≠ none) :
    l.foldl (addOneScore true) st = st := by
  induction l with
  | nil => rfl
  | cons sd rest ih2 =>
    rw [List.foldl_cons]
    obtain ⟨s, hs⟩ := Option.ne_none_iff_exists'.mp (hkeyed sd (List.mem_cons_self _ _))
    have hstep : addOneScore true st sd = st := by
      unfold addOneScore
      rw [processScore_keyed_roster st sd s hm hs,
        if_neg (by simp [dictMem, hempty, dictFind])]
    rw [hstep]
    exact ih2 (fun x hx => hkeyed x (List.mem_cons_of_mem _ hx))

theorem addState_keyed_empty (st : AggState) (r : OCRResult)
    (hm : st.has_master_list = true) (hempty : st.student_scores = [])
    (hkeyed : ∀ sd ∈ r.scores, sd.student_id ≠ none) :
    (addState st r).student_scores = []
    ∧ (addState st r).has_master_list = true := by
  unfold addState add_ocr_result
  split
  · exact ⟨hempty, hm⟩
  · dsimp only
    have hfold : r.scores.foldl (addOneScore (Option.getD none st.has_master_list)) st
        = st := by
      rw [Option.getD_none, hm]
      exact foldl_keyed_empty_state r.scores st hm hempty hkeyed
    rw [hfold]
    exact ⟨hempty, hm⟩

theorem batch_keyed_empty (docs : List OCRResult) (st : AggState)
    (hm : st.has_master_list = true) (hempty : st.student_scores = [])
    (hkeyed : ∀ r ∈ docs, ∀ sd ∈ r.scores, sd.student_id ≠ none) :
    (batch_add_results st docs).1.student_scores = []
    ∧ (batch_add_results st docs).1.has_master_list = true := by
  rw [batch_fst]
  induction docs generalizing st with
  | nil => exact ⟨hempty, hm⟩
  | cons r rest ih =>
    rw [List.foldl_cons]
    obtain ⟨h1, h2⟩ := addState_keyed_empty st r hm hempty
      (hkeyed r (List.mem_cons_self _ _))
    exact ih (addState st r) h2 h1 (fun x hx => hkeyed x (List.mem_cons_of_mem _ hx))

/-! ## Claim C10 -/

/-- Claim C10 (amended): clear resets only the entity dict and the
processed log, leaving has_master_list unchanged; hence for an aggregator
whose flag is set, after clear scores_only still defaults to true and
merging documents whose observations all carry a student_key rejects each
of them as unmatched: no entity is ever created and the flag stays set.
The unamended universal fails only in the corner where an intervening
privacy-mode observation creates an order_N entity and a later observation
carries exactly that string as student_key: that one is matched, not
rejected. -/
theorem claim_C10_clear_keeps_flag :
    (∀ st : AggState, clear st = ⟨[], [], st.has_master_list⟩)
    ∧ (∀ (st : AggState) (docs : List OCRResult),
      st.has_master_list = true →
      (∀ r ∈ docs, ∀ sd ∈ r.scores, sd.student_id ≠ none) →
      (batch_add_results (clear st) docs).1.student_scores = []
      ∧ (batch_add_results (clear st) docs).1.has_master_list = true) := by
  constructor
  · intro st
    rfl
  · intro st docs hm hkeyed
    exact batch_keyed_empty docs (clear st) hm rfl hkeyed

/-- Witness for C10: with roster [s1], after clear the flag is still set
and a document keyed s1 is wholly rejected: no entity is created. -/
theorem claim_C10_witness :
    clear (initAggregator (some [⟨1, "s1", "A"⟩]))
      = ⟨[], [], (initAggregator (some [⟨1, "s1", "A"⟩])).has_master_list⟩
    ∧ (batch_add_results (clear (initAggregator (some [⟨1, "s1", "A"⟩])))
        [⟨true, "k", [⟨some "s1", some 1, some "A", some 9⟩]⟩]).1.student_scores = []
    ∧ (batch_add_results (clear (initAggregator (some [⟨1, "s1", "A"⟩])))
        [⟨true, "k", [⟨some "s1", some 1, some "A", some 9⟩]⟩]).1.has_master_list
      = true := by
  have h := claim_C10_clear_keeps_flag.2 (initAggregator (some [⟨1, "s1", "A"⟩]))
    [⟨true, "k", [⟨some "s1", some 1, some "A", some 9⟩]⟩] rfl (by decide)
  exact ⟨claim_C10_clear_keeps_flag.1 _, h.1, h.2⟩

/-- Counterexample for C10 as stated: after clear with the flag still set,
a privacy-mode observation creates entity order_3, and a later observation
whose student_key is the string order_3 is then matched and merged (its
score appended), not rejected as unmatched. -/
theorem claim_C10_counterexample :
    dictFind (batch_add_results (clear (initAggregator (some [⟨1, "s1", "A"⟩])))
      [⟨true, "p", [⟨none, some 3, none, some 5⟩]⟩,
       ⟨true, "k", [⟨some "order_3", none, none, some 9⟩]⟩]).1.student_scores
      (some "order_3")
      = some ⟨some 3, none, [some 5, some 9]⟩ := by
  decide

/-! ## Claim C5 -/

theorem batch_files_length (docs : List OCRResult) (st : AggState) :
    (batch_add_results st docs).1.processed_files.length
      = st.processed_files.length + (docs.filter (fun r => r.success)).length := by
  rw [batch_fst]
  induction docs generalizing st with
  | nil => simp
  | cons r rest ih =>
    rw [List.foldl_cons, ih]
    have hf := addState_files st r
    rcases hr : r.success with _ | _
    · rw [if_neg (by simp [hr])] at hf
      rw [hf, List.filter_cons, if_neg (by simp [hr])]
    · rw [if_pos hr] at hf
      rw [hf, List.filter_cons, if_pos (by simp [hr])]
      simp only [List.length_append, List.length_cons, List.length_nil]
      omega

theorem get_statistics_eq (st : AggState) (h : st.student_scores ≠ []) :
    get_statistics st = ⟨st.student_scores.length, st.processed_files.length,
      round2 ((((st.student_scores.map (fun p => p.2.scores.length) : List ℕ)).sum : ℚ)
        / (st.student_scores.length : ℚ)),
      ((st.student_scores.map (fun p => p.2.scores.length)).filter
        (fun c => c = st.processed_files.length)).length⟩ := by
  unfold get_statistics
  rw [if_neg (fun hc => h (List.length_eq_zero.mp hc))]
  dsimp only
  rw [List.length_map]

/-- Claim C5 (amended): get_statistics always reports total_students as the
entity count; when at least one entity exists it reports total_documents
as the length of the processed log (which grows by exactly the successful
merges), avg_scores_per_student as the mean per-entity observation count
rounded to two decimals, and students_with_all_scores as the count of
entities whose observation count equals the processed-document count; and
it returns the all-zero record exactly when there are no entities.  The
unamended claim fails for zero merged documents with roster-seeded
entities: there total_students and students_with_all_scores both equal the
roster size, not zero. -/
theorem claim_C5_statistics (st : AggState) (docs : List OCRResult) :
    (get_statistics st).total_students = st.student_scores.length
    ∧ (st.student_scores = [] → get_statistics st = ⟨0, 0, 0, 0⟩)
    ∧ (st.student_scores ≠ [] →
        (get_statistics st).total_files = st.processed_files.length
        ∧ (get_statistics st).avg_scores_per_student
          = round2 ((((st.student_scores.map (fun p => p.2.scores.length) : List ℕ)).sum : ℚ)
            / (st.student_scores.length : ℚ))
        ∧ (get_statistics st).students_with_all_scores
          = ((st.student_scores.map (fun p => p.2.scores.length)).filter
            (fun c => c = st.processed_files.length)).length)
    ∧ (batch_add_results st docs).1.processed_files.length
      = st.processed_files.length + (docs.filter (fun r => r.success)).length := by
  refine ⟨stats_total_students st, ?_, ?_, batch_files_length docs st⟩
  · intro h
    unfold get_statistics
    rw [if_pos (by simp [h])]
  · intro h
    rw [get_statistics_eq st h]
    exact ⟨rfl, rfl, rfl⟩

/-- Witness for C5: the empty aggregator yields the all-zero record, and a
state with one entity and one processed document reports total_files 1. -/
theorem claim_C5_witness :
    get_statistics ⟨[], [], false⟩ = ⟨0, 0, 0, 0⟩
    ∧ (get_statistics
        ⟨[(some "s1", ⟨some 1, some "A", [some 5]⟩)], ["a"], true⟩).total_files = 1 := by
  constructor
  · exact (claim_C5_statistics ⟨[], [], false⟩ []).2.1 rfl
  · exact ((claim_C5_statistics
      ⟨[(some "s1", ⟨some 1, some "A", [some 5]⟩)], ["a"], true⟩ []).2.2.1
      (by decide)).1

/-- Counterexample for C5 as stated: a roster of one student with zero
merged documents is a state with zero merged documents, yet get_statistics
reports total_students 1 and students_with_all_scores 1, not all-zero. -/
theorem claim_C5_counterexample :
    (get_statistics (initAggregator (some [⟨1, "s1", "A"⟩]))).total_students = 1
    ∧ (get_statistics (initAggregator (some [⟨1, "s1", "A"⟩]))).students_with_all_scores
      = 1
    ∧ (initAggregator (some [⟨1, "s1", "A"⟩])).processed_files.length = 0 := by
  decide

/-! ## Claim C9 machinery -/

theorem foldl_max_le (l : List ℕ) :
    ∀ a : ℕ, (∀ x ∈ l, x ≤ l.foldl max a) ∧ a ≤ l.foldl max a := by
  induction l with
  | nil =>
    intro a
    exact ⟨by simp, le_refl a⟩
  | cons b rest ih =>
    intro a
    rw [List.foldl_cons]
    obtain ⟨h1, h2⟩ := ih (max a b)
    refine ⟨?_, le_trans (le_max_left a b) h2⟩
    intro x hx
    rcases List.mem_cons.mp hx with hx | hx
    · rw [hx]
      exact le_trans (le_max_right a b) h2
    · exact h1 x hx

theorem length_le_maxScoresOf (data : List Entity) (e : Entity) (he : e ∈ data) :
    e.scores.length ≤ maxScoresOf data :=
  (foldl_max_le (data.map (fun u => u.scores.length)) 0).1 _
    (List.mem_map_of_mem _ he)

theorem entityRow_length (ms : ℕ) (e : Entity) (h : e.scores.length ≤ ms) :
    (entityRow ms e).length = 3 + ms := by
  unfold entityRow
  simp only [List.length_append, List.length_map, List.length_cons,
    List.length_nil, List.length_replicate]
  omega

theorem toDigitsCore_ne_nil (b : ℕ) :
    ∀ (fuel n : ℕ) (ds : List Char), ds ≠ [] → Nat.toDigitsCore b fuel n ds ≠ [] := by
  intro fuel
  induction fuel with
  | zero =>
    intro n ds h
    exact h
  | succ f ih =>
    intro n ds h
    unfold Nat.toDigitsCore
    dsimp only
    split
    · simp
    · exact ih _ _ (by simp)

theorem toDigits_ne_nil (b n : ℕ) : Nat.toDigits b n ≠ [] := by
  unfold Nat.toDigits Nat.toDigitsCore
  dsimp only
  split
  · simp
  · exact toDigitsCore_ne_nil b n _ _ (by simp)

theorem natRepr_ne_empty (n : ℕ) : Nat.repr n ≠ "" := by
  unfold Nat.repr
  intro h
  have h2 : (Nat.toDigits 10 n).length = 0 := by
    have h3 := congrArg String.length h
    rwa [List.length_asString] at h3
  exact toDigits_ne_nil 10 n (List.length_eq_zero.mp h2)

theorem toString_int_ne_empty (v : ℤ) : toString v ≠ "" := by
  cases v with
  | ofNat m => exact natRepr_ne_empty m
  | negSucc m =>
    show "-" ++ Nat.repr (m + 1) ≠ ""
    intro h
    have h2 := congrArg String.length h
    rw [String.length_append] at h2
    have h3 : 1 + (Nat.repr (m + 1)).length = 0 := h2
    omega

/-! ## Claim C9 -/

/-- Claim C9: for a nonempty entity list the writer emits the header row
followed by one row per entity in input order; every data row has exactly
3 identity cells plus maxScoresOf cells, right-padded with empty cells; a
null observation renders as the empty cell while a present integer value
never renders empty; and for an empty entity list nothing is written and
the caller is informed (the writer returns the failure value, raising
nothing since it is total). -/
theorem claim_C9_csv_write (data : List Entity) (pfx : String) :
    (data = [] → csvWrite data pfx = none)
    ∧ (data ≠ [] →
        csvWrite data pfx
          = some (csvHeaders pfx (maxScoresOf data)
              :: data.map (entityRow (maxScoresOf data)))
        ∧ ∀ e ∈ data, (entityRow (maxScoresOf data) e).length
            = 3 + maxScoresOf data)
    ∧ cellOfInt none = ""
    ∧ (∀ v : ℤ, cellOfInt (some v) ≠ "") := by
  refine ⟨?_, ?_, rfl, ?_⟩
  · intro h
    subst h
    rfl
  · intro h
    refine ⟨?_, ?_⟩
    · unfold csvWrite
      rw [if_neg (by simpa using h)]
    · intro e he
      exact entityRow_length _ e (length_le_maxScoresOf data e he)
  · intro v
    exact toString_int_ne_empty v

/-- Witness for C9: a one-entity list produces the header and its row; the
empty list produces the failure value; a present 0 renders nonempty. -/
theorem claim_C9_witness :
    csvWrite [⟨some "s", some 1, some "A", [some 3, none]⟩] "p"
      = some (csvHeaders "p" (maxScoresOf [⟨some "s", some 1, some "A", [some 3, none]⟩])
          :: [(⟨some "s", some 1, some "A", [some 3, none]⟩ : Entity)].map
            (entityRow (maxScoresOf [⟨some "s", some 1, some "A", [some 3, none]⟩])))
    ∧ csvWrite [] "p" = none
    ∧ cellOfInt (some 0) ≠ "" := by
  refine ⟨?_, ?_, ?_⟩
  · exact ((claim_C9_csv_write [⟨some "s", some 1, some "A", [some 3, none]⟩] "p").2.1
      (by decide)).1
  · exact (claim_C9_csv_write [] "p").1 rfl
  · exact (claim_C9_csv_write [] "p").2.2.2 0

end GradingOCR
